import Mathlib

/-!
# Verification of the hierarchical web-agent orchestrator

Shallow embedding of the subtask orchestration core of this repository:

* `src/agent/planner.py` — `ChecklistPlanner.plan`'s defensive validation;
* `src/agent/hierarchical_agent.py` — `SubtaskStatus`, `_keep_last_page`,
  and `HierarchicalAgent.run`'s subtask loop, progress rendering, timeout
  handling, trace aggregation and teardown behaviour.

External effects (the LLM planner chain, the browser-use step executor, tab
handles) are modelled as oracle parameters; the orchestration logic itself is
translated statement by statement from the Python source.  Machine-observable
control flow (executor invocations, status mutations, page handoffs, session
teardown) is recorded in an explicit event list so that temporal and
resource-cleanup properties can be stated.
-/

namespace WebAgents

/-! ## Python values returned by the planning chain

`ChecklistPlanner.plan` (planner.py lines 98-109) receives `refined.steps`
from the LLM chain; the defensive check `isinstance(step, str)` needs a value
type that may or may not be a string. -/

inductive PyVal where
  | str (s : String)
  | other (tag : Nat)
deriving DecidableEq, Repr, Inhabited

def PyVal.isStr : PyVal → Bool
  | .str _ => true
  | .other _ => false

def PyVal.asStr : PyVal → String
  | .str s => s
  | .other _ => ""

namespace ChecklistPlanner

/-- Embedding of the tail of `ChecklistPlanner.plan` (planner.py lines
105-109): `if not all(isinstance(step, str) for step in refined.steps):
raise TypeError("Planner must return List[str]")` followed by
`return refined.steps`.  Note the code never checks for emptiness: an empty
`refined.steps` passes the `all` test (vacuously) and is returned as is. -/
def plan_validate (steps : List PyVal) : Except String (List String) :=
  if steps.all PyVal.isStr then
    Except.ok (steps.map PyVal.asStr)
  else
    Except.error "Planner must return List[str]"

end ChecklistPlanner

/-! ## SubtaskStatus (hierarchical_agent.py lines 15-25) -/

/-- `@dataclass class SubtaskStatus: name: str; done: bool = False;
error: str | None = None`.  There is no explicit `Running` field: the status
of the subtask currently being executed stays at its defaults until
`mark_done`/`mark_error` fires. -/
structure SubtaskStatus where
  name : String
  done : Bool := false
  error : Option String := none
deriving DecidableEq, Repr, Inhabited

/-- `def mark_done(self): self.done = True` -/
def SubtaskStatus.mark_done (s : SubtaskStatus) : SubtaskStatus :=
  { s with done := true }

/-- `def mark_error(self, err): self.error = err` -/
def SubtaskStatus.mark_error (s : SubtaskStatus) (err : String) : SubtaskStatus :=
  { s with error := some err }

/-- A status is terminal when it is marked done or carries an error detail. -/
def isTerminal (s : SubtaskStatus) : Bool := s.done || s.error.isSome

/-- A status is pending when it is neither done nor carries an error. -/
def isPending (s : SubtaskStatus) : Bool := !s.done && s.error.isNone

/-- A status in a "running" state would be one that is neither pending nor
terminal; the dataclass cannot represent such a state (a subtask being
executed is simply the one at the current index, still pending), so this
predicate never holds of any value. -/
def isRunning (s : SubtaskStatus) : Bool := !isTerminal s && !isPending s

/-- Python truthiness of an `str | None` field (`elif st.error:`):
`None` and the empty string are falsy. -/
def pyTruthy : Option String → Bool
  | none => false
  | some s => !s.isEmpty

/-! ## _keep_last_page (hierarchical_agent.py lines 27-44) -/

/-- A Playwright page handle as the orchestrator observes it: an identity and
whether `is_closed()` holds. -/
structure Page where
  id : Nat
  is_closed : Bool
deriving DecidableEq, Repr, Inhabited

/-- `await p.close()` can raise (`TargetClosedError`) precisely when the page
or its context has already been closed ("it vanished meanwhile"); the oracle
`closeFails` says for which page identities that happens.  Either way the
page is closed afterwards: on success because `close()` closed it, on failure
because it had already vanished. -/
def close_page (closeFails : Nat → Bool) (p : Page) : Except String Page :=
  if closeFails p.id then
    Except.error "Target page, context or browser has been closed"
  else
    Except.ok { p with is_closed := true }

/-- The `try: await p.close() except Exception: pass` around each close in
`_keep_last_page`: a raising close is swallowed, and the page is gone (closed)
in either branch. -/
def try_close (closeFails : Nat → Bool) (p : Page) : Page :=
  match close_page closeFails p with
  | .ok p2 => p2
  | .error _ => { p with is_closed := true }

/-- Embedding of `_keep_last_page(context)` (lines 27-44): filter out
already-closed handles; if none remain return `None`; otherwise keep the last
opened page, best-effort close every earlier one, and return the last page.
Returns the new active page (if any) together with the resulting state of the
context's pages. -/
def keep_last_page (closeFails : Nat → Bool) (pages : List Page) :
    Option Page × List Page :=
  let opens := pages.filter (fun p => !p.is_closed)
  if h : opens = [] then
    (none, pages)
  else
    let last := opens.getLast h
    let toCloseIds := (opens.dropLast).map Page.id
    (some last,
      pages.map (fun p =>
        if toCloseIds.contains p.id then try_close closeFails p else p))

/-! ## Progress rendering (hierarchical_agent.py lines 151-160) -/

/-- `f"✔️ Step {j}: {st.name}"` -/
def doneLine (j : Nat) (st : SubtaskStatus) : String :=
  "✔️ Step " ++ toString j ++ ": " ++ st.name

/-- `f"❌ Step {j}: {st.name} (error: {st.error})"` -/
def errLine (j : Nat) (st : SubtaskStatus) : String :=
  "❌ Step " ++ toString j ++ ": " ++ st.name ++ " (error: " ++ st.error.getD "" ++ ")"

/-- `f"🔄 Step {j}: {st.name} (COMING UP NEXT)"` -/
def comingLine (j : Nat) (st : SubtaskStatus) : String :=
  "🔄 Step " ++ toString j ++ ": " ++ st.name ++ " (COMING UP NEXT)"

/-- The lines contributed by the status `st` numbered `j` (1-based, as
`enumerate(statuses, start=1)`) when the current subtask index is `idx`:
the body of the `for j, st in enumerate(statuses, start=1)` loop.  Note the
`else` branch applies to every `j >= idx`, not only `j == idx`. -/
def lineFor (idx j : Nat) (st : SubtaskStatus) : List String :=
  if j < idx then
    if st.done then [doneLine j st]
    else if pyTruthy st.error then [errLine j st]
    else []
  else [comingLine j st]

/-- The whole `progress_lines` loop: lines for statuses numbered from `j`. -/
def progressLines (idx : Nat) : Nat → List SubtaskStatus → List String
  | _, [] => []
  | j, st :: rest => lineFor idx j st ++ progressLines idx (j + 1) rest

/-- `formatted_progress = "\n".join(progress_lines)` for current index
`idx`, numbering from 1. -/
def renderProgress (statuses : List SubtaskStatus) (idx : Nat) : List String :=
  progressLines idx 1 statuses

/-- Number statuses from `j` upward (the pairs `enumerate` yields). -/
def numberFrom : Nat → List SubtaskStatus → List (Nat × SubtaskStatus)
  | _, [] => []
  | j, st :: rest => (j, st) :: numberFrom (j + 1) rest

/-! ## The orchestrator loop (hierarchical_agent.py lines 78-232) -/

/-- What one `asyncio.wait_for(agent.run(...), timeout=...)` call can do, as
the orchestrator observes it: return a step history, hit the timeout
(`asyncio.TimeoutError`), raise an ordinary exception caught by
`except Exception as e`, or be cancelled (`asyncio.CancelledError` is a
`BaseException`, caught by neither handler). -/
inductive ExecOutcome (Step : Type) where
  | completed (history : List Step)
  | timedOut
  | raised (msg : String)
  | cancelled

/-- The error that propagates out of `HierarchicalAgent.run` to its caller.
The bare `raise` on the timeout path re-raises `asyncio.TimeoutError` itself
(the "timed out after …s" text goes only into the status record); the
exception path re-raises the executor's exception; the planning path lets the
planner's `TypeError` propagate. -/
inductive RunError where
  | timedOutErr
  | raisedErr (msg : String)
  | cancelledErr
  | planningError (msg : String)
deriving DecidableEq, Repr

/-- The observable control-flow events of one `HierarchicalAgent.run` call.
`invoke idx subtask ia` is the construction/start of the BrowserUseAgent for
the 1-based subtask `idx` (`ia` = whether `initial_actions` was put into its
parameters); `execReturn` is its `agent.run` returning within the deadline;
`markedDone`/`markedFailed` are the status mutations; `handoff` is the
`_keep_last_page` call; `teardown` is one execution of the cleanup pair
`session.kill()` + `playwright.stop()`. -/
inductive Event where
  | planned
  | invoke (idx : Nat) (subtask : String) (ia : Bool)
  | execReturn (idx : Nat)
  | markedDone (idx : Nat)
  | markedFailed (idx : Nat) (msg : String)
  | handoff (idx : Nat)
  | teardown
deriving DecidableEq, Repr

/-- The constructor parameters of `HierarchicalAgent` that the orchestration
logic reads (lines 54-71).  `subtask_timeout` is carried as the text Python's
f-string renders for the configured float (default `60.0` prints as
`"60.0"`); `initial_actions` is `None` or a list of action dicts (abstracted
to opaque tags), tested for truthiness at line 145. -/
structure AgentConfig where
  subtask_timeout : String := "60.0"
  initial_actions : Option (List Nat) := none
deriving Repr

/-- Truthiness of `self.initial_actions` (`if idx == 1 and
self.initial_actions:`): `None` and `[]` are falsy. -/
def AgentConfig.has_initial_actions (cfg : AgentConfig) : Bool :=
  match cfg.initial_actions with
  | none => false
  | some l => !l.isEmpty

/-- `err = f"timed out after {self.subtask_timeout}s"` (line 199). -/
def timeoutMsg (cfg : AgentConfig) : String :=
  "timed out after " ++ cfg.subtask_timeout ++ "s"

/-- Replace the element at position `n` by `f` of it (Python's in-place
`statuses[n].mark_...()`). -/
def modifyAt {α : Type} (f : α → α) : Nat → List α → List α
  | _, [] => []
  | 0, a :: as => f a :: as
  | n + 1, a :: as => a :: modifyAt f n as

/-- What the body of the `try:` block at lines 129-216 produces, together
with the observable events and every state the `statuses` list passes
through (`snapshots` pairs each observed state with the 0-based position of
the next subtask to run at that moment). -/
structure LoopOut (Step : Type) where
  result : Except RunError Unit
  statuses : List SubtaskStatus
  history : List Step
  events : List Event
  snapshots : List (Nat × List SubtaskStatus)

/-- Embedding of the subtask loop `for idx, subtask in enumerate(checklist,
start=1)` (lines 131-216).  `p` is the 0-based position (`p = idx - 1`, the
index used for `statuses[idx - 1]`); `remaining` the subtasks not yet run;
`acc` the `combined_history` accumulator.  The executor oracle maps the
1-based subtask index to the outcome of that subtask's
`asyncio.wait_for(agent.run(...), timeout=...)` call:

* `completed h` — `statuses[idx-1].mark_done()`, `combined_history.extend(h)`,
  then `page = await _keep_last_page(...)` and the next iteration;
* `timedOut` — `statuses[idx-1].mark_error(f"timed out after {t}s")`, `raise`;
* `raised e` — `statuses[idx-1].mark_error(str(e))`, `raise`;
* `cancelled` — caught by neither `except` clause: no status mutation. -/
def runLoop {Step : Type} (cfg : AgentConfig) (executor : Nat → ExecOutcome Step) :
    Nat → List String → List SubtaskStatus → List Step → LoopOut Step
  | p, [], statuses, acc =>
      { result := Except.ok ()
        statuses := statuses
        history := acc
        events := []
        snapshots := [(p, statuses)] }
  | p, subtask :: rest, statuses, acc =>
      let ia := p == 0 && cfg.has_initial_actions
      match executor (p + 1) with
      | .completed h =>
          let statuses2 := modifyAt SubtaskStatus.mark_done p statuses
          let tail := runLoop cfg executor (p + 1) rest statuses2 (acc ++ h)
          { result := tail.result
            statuses := tail.statuses
            history := tail.history
            events := Event.invoke (p + 1) subtask ia :: Event.execReturn (p + 1) ::
                      Event.markedDone (p + 1) :: Event.handoff (p + 1) :: tail.events
            snapshots := (p, statuses) :: tail.snapshots }
      | .timedOut =>
          let msg := timeoutMsg cfg
          let statuses2 := modifyAt (fun s => s.mark_error msg) p statuses
          { result := Except.error RunError.timedOutErr
            statuses := statuses2
            history := acc
            events := [Event.invoke (p + 1) subtask ia, Event.markedFailed (p + 1) msg]
            snapshots := [(p, statuses), (p + 1, statuses2)] }
      | .raised e =>
          let statuses2 := modifyAt (fun s => s.mark_error e) p statuses
          { result := Except.error (RunError.raisedErr e)
            statuses := statuses2
            history := acc
            events := [Event.invoke (p + 1) subtask ia, Event.markedFailed (p + 1) e]
            snapshots := [(p, statuses), (p + 1, statuses2)] }
      | .cancelled =>
          { result := Except.error RunError.cancelledErr
            statuses := statuses
            history := acc
            events := [Event.invoke (p + 1) subtask ia]
            snapshots := [(p, statuses)] }

/-- The value `HierarchicalAgent.run` returns on the success path (lines
230-232): `{"history": combined_history, "subtask_history": [...]}`. -/
structure RunResult (Step : Type) where
  history : List Step
  subtask_history : List SubtaskStatus
deriving Repr, DecidableEq

/-- A whole `HierarchicalAgent.run` call as the caller and an observer see
it: its return value or propagated exception, the event list, and the status
snapshots. -/
structure RunOutput (Step : Type) where
  result : Except RunError (RunResult Step)
  events : List Event
  snapshots : List (Nat × List SubtaskStatus)

/-- Embedding of `HierarchicalAgent.run(task, website)` (lines 78-232).

* `checklist = await self.planner.plan(task, website)` (line 93) happens
  before the browser session is created and before the `try/finally`; if the
  planner's validation raises, the `TypeError` propagates with no
  `session.kill()`/`playwright.stop()` ever executed.
* On a checklist, `statuses` is created all-pending (line 125) and the loop
  runs inside `try: ... finally: session.kill(); playwright.stop()`
  (lines 129-228): the `finally` block performs one teardown on every exit,
  and on the success path the duplicated cleanup at lines 225-228 performs a
  second one before the result dict is returned. -/
def HierarchicalAgent.run {Step : Type} (cfg : AgentConfig)
    (planner_steps : List PyVal) (executor : Nat → ExecOutcome Step) :
    RunOutput Step :=
  match ChecklistPlanner.plan_validate planner_steps with
  | .error e =>
      { result := Except.error (RunError.planningError e)
        events := []
        snapshots := [] }
  | .ok checklist =>
      let statuses := checklist.map (fun s => ({ name := s } : SubtaskStatus))
      let out := runLoop cfg executor 0 checklist statuses []
      match out.result with
      | .ok _ =>
          { result := Except.ok { history := out.history, subtask_history := out.statuses }
            events := Event.planned :: (out.events ++ [Event.teardown, Event.teardown])
            snapshots := out.snapshots }
      | .error e =>
          { result := Except.error e
            events := Event.planned :: (out.events ++ [Event.teardown])
            snapshots := out.snapshots }

/-- The `HierarchicalAgent(...)` constructor defaults
(`subtask_timeout=60.0`, `initial_actions=None`). -/
def defaultCfg : AgentConfig := {}

/-- Number of teardown operations (`session.kill()` + `playwright.stop()`
pairs) in an event list. -/
def teardownCount (evs : List Event) : Nat :=
  evs.countP (fun e => e == Event.teardown)

/-- The 1-based subtask index of an invocation event, if it is one. -/
def Event.invokeIdx : Event → Option Nat
  | .invoke j _ _ => some j
  | _ => none

/-- The 1-based indices of the executor invocations, in event order. -/
def invokeIndices (evs : List Event) : List Nat :=
  evs.filterMap Event.invokeIdx

/-- The step history an executor outcome carries (empty unless completed). -/
def execHist {Step : Type} (executor : Nat → ExecOutcome Step) (j : Nat) : List Step :=
  match executor j with
  | .completed h => h
  | _ => []

/-! ## Canonical shapes of a run's prefix of completed subtasks -/

/-- Mark the statuses at 0-based positions `p, p+1, …, p+c-1` done: the
cumulative effect of the `mark_done` calls of `c` completed subtasks
starting at position `p`. -/
def markDoneRange : List SubtaskStatus → Nat → Nat → List SubtaskStatus
  | sts, _, 0 => sts
  | sts, p, c + 1 => markDoneRange (modifyAt SubtaskStatus.mark_done p sts) (p + 1) c

/-- The events of one completed subtask at 0-based position `p`. -/
def blockEvents (cfg : AgentConfig) (p : Nat) (subtask : String) : List Event :=
  [Event.invoke (p + 1) subtask (p == 0 && cfg.has_initial_actions),
   Event.execReturn (p + 1), Event.markedDone (p + 1), Event.handoff (p + 1)]

/-- The events of a sequence of completed subtasks starting at position `p`. -/
def prefixEvents (cfg : AgentConfig) : Nat → List String → List Event
  | _, [] => []
  | p, s :: rest => blockEvents cfg p s ++ prefixEvents cfg (p + 1) rest

/-- The status snapshots taken at the start of `m` successive completed
iterations beginning at position `p` with status list `sts`. -/
def prefixSnapshots : Nat → Nat → List SubtaskStatus → List (Nat × List SubtaskStatus)
  | _, 0, _ => []
  | p, m + 1, sts =>
      (p, sts) :: prefixSnapshots (p + 1) m (modifyAt SubtaskStatus.mark_done p sts)

/-- Concatenation of the step histories of the `m` subtasks at 1-based
indices `p+1, …, p+m`, in order. -/
def histJoin {Step : Type} (executor : Nat → ExecOutcome Step) : Nat → Nat → List Step
  | _, 0 => []
  | p, m + 1 => execHist executor (p + 1) ++ histJoin executor (p + 1) m

/-! ## Helper lemmas about `modifyAt` and `markDoneRange` -/

theorem modifyAt_length {α : Type} (f : α → α) :
    ∀ (n : Nat) (l : List α), (modifyAt f n l).length = l.length := by
  intro n l
  induction l generalizing n with
  | nil => cases n <;> rfl
  | cons a as ih => cases n with
    | zero => rfl
    | succ m => simpa [modifyAt] using ih m

theorem getD_modifyAt_self {α : Type} (f : α → α) (d : α) :
    ∀ (n : Nat) (l : List α), n < l.length →
      (modifyAt f n l).getD n d = f (l.getD n d) := by
  intro n l
  induction l generalizing n with
  | nil => intro h; simp at h
  | cons a as ih =>
    intro h
    cases n with
    | zero => rfl
    | succ m => simpa [modifyAt] using ih m (by simpa using h)

theorem getD_modifyAt_ne {α : Type} (f : α → α) (d : α) :
    ∀ (n j : Nat) (l : List α), j ≠ n →
      (modifyAt f n l).getD j d = l.getD j d := by
  intro n j l
  induction l generalizing n j with
  | nil => intro _; cases n <;> rfl
  | cons a as ih =>
    intro hne
    cases n with
    | zero =>
      cases j with
      | zero => exact absurd rfl hne
      | succ i => rfl
    | succ m =>
      cases j with
      | zero => rfl
      | succ i => simpa [modifyAt] using ih m i (fun h => hne (by omega))

theorem markDoneRange_length :
    ∀ (c p : Nat) (sts : List SubtaskStatus),
      (markDoneRange sts p c).length = sts.length := by
  intro c
  induction c with
  | zero => intro p sts; rfl
  | succ m ih =>
    intro p sts
    simpa [markDoneRange, modifyAt_length] using ih (p + 1) (modifyAt SubtaskStatus.mark_done p sts)

theorem markDoneRange_getD (d : SubtaskStatus) :
    ∀ (c p j : Nat) (sts : List SubtaskStatus), j < sts.length →
      (markDoneRange sts p c).getD j d =
        if p ≤ j ∧ j < p + c then (sts.getD j d).mark_done else sts.getD j d := by
  intro c
  induction c with
  | zero =>
    intro p j sts _
    rw [show markDoneRange sts p 0 = sts from rfl, if_neg (by omega)]
  | succ m ih =>
    intro p j sts hj
    by_cases hjp : j = p
    · subst hjp
      have h1 : (markDoneRange (modifyAt SubtaskStatus.mark_done j sts) (j + 1) m).getD j d =
          (modifyAt SubtaskStatus.mark_done j sts).getD j d := by
        rw [ih (j + 1) j _ (by rw [modifyAt_length]; exact hj)]
        simp [show ¬(j + 1 ≤ j ∧ j < j + 1 + m) from by omega]
      rw [markDoneRange, h1, getD_modifyAt_self _ _ _ _ hj]
      simp [show j ≤ j ∧ j < j + (m + 1) from by omega]
    · have h1 : (markDoneRange (modifyAt SubtaskStatus.mark_done p sts) (p + 1) m).getD j d =
          if p + 1 ≤ j ∧ j < p + 1 + m then
            ((modifyAt SubtaskStatus.mark_done p sts).getD j d).mark_done
          else (modifyAt SubtaskStatus.mark_done p sts).getD j d := by
        exact ih (p + 1) j _ (by rw [modifyAt_length]; exact hj)
      rw [markDoneRange, h1, getD_modifyAt_ne _ _ _ _ _ hjp]
      by_cases hcond : p + 1 ≤ j ∧ j < p + 1 + m
      · simp [hcond, show p ≤ j ∧ j < p + (m + 1) from by omega]
      · simp [hcond, show ¬(p ≤ j ∧ j < p + (m + 1)) from by omega]

/-! ## Master lemmas about the subtask loop -/

/-- Running the loop over a prefix of `m` subtasks that all complete equals:
the canonical prefix of events and snapshots, the `m` statuses marked done,
the `m` histories appended, followed by the loop on the rest. -/
theorem runLoop_unroll {Step : Type} (cfg : AgentConfig) (executor : Nat → ExecOutcome Step)
    (remaining : List String) :
    ∀ (m p : Nat) (sts : List SubtaskStatus) (acc : List Step),
      m ≤ remaining.length →
      (∀ i, i < m → executor (p + 1 + i) = ExecOutcome.completed (execHist executor (p + 1 + i))) →
      runLoop cfg executor p remaining sts acc =
        { runLoop cfg executor (p + m) (remaining.drop m) (markDoneRange sts p m)
            (acc ++ histJoin executor p m) with
          events := prefixEvents cfg p (remaining.take m) ++
            (runLoop cfg executor (p + m) (remaining.drop m) (markDoneRange sts p m)
              (acc ++ histJoin executor p m)).events
          snapshots := prefixSnapshots p m sts ++
            (runLoop cfg executor (p + m) (remaining.drop m) (markDoneRange sts p m)
              (acc ++ histJoin executor p m)).snapshots } := by
  induction remaining with
  | nil =>
    intro m p sts acc hm _
    have hm0 : m = 0 := Nat.le_zero.mp hm
    subst hm0
    simp [markDoneRange, histJoin, prefixEvents, prefixSnapshots]
  | cons s rest ih =>
    intro m p sts acc hm hc
    match m with
    | 0 => simp [markDoneRange, histJoin, prefixEvents, prefixSnapshots]
    | Nat.succ m =>
      have h0 : executor (p + 1) = ExecOutcome.completed (execHist executor (p + 1)) := by
        simpa using hc 0 (Nat.succ_pos m)
      have hc2 : ∀ i, i < m →
          executor (p + 1 + 1 + i) = ExecOutcome.completed (execHist executor (p + 1 + 1 + i)) := by
        intro i hi
        have h := hc (i + 1) (by omega)
        have e : p + 1 + (i + 1) = p + 1 + 1 + i := by omega
        rw [e] at h
        exact h
      have step : runLoop cfg executor p (s :: rest) sts acc =
          { runLoop cfg executor (p + 1) rest (modifyAt SubtaskStatus.mark_done p sts)
              (acc ++ execHist executor (p + 1)) with
            events := blockEvents cfg p s ++
              (runLoop cfg executor (p + 1) rest (modifyAt SubtaskStatus.mark_done p sts)
                (acc ++ execHist executor (p + 1))).events
            snapshots := (p, sts) ::
              (runLoop cfg executor (p + 1) rest (modifyAt SubtaskStatus.mark_done p sts)
                (acc ++ execHist executor (p + 1))).snapshots } := by
        rw [runLoop, h0]
        simp [blockEvents]
      rw [step, ih m (p + 1) (modifyAt SubtaskStatus.mark_done p sts)
            (acc ++ execHist executor (p + 1)) (by simpa using hm) hc2]
      have ep : p + 1 + m = p + (m + 1) := by omega
      have edrop : rest.drop m = (s :: rest).drop (m + 1) := rfl
      have emark : markDoneRange (modifyAt SubtaskStatus.mark_done p sts) (p + 1) m =
          markDoneRange sts p (m + 1) := rfl
      have ehist : acc ++ execHist executor (p + 1) ++ histJoin executor (p + 1) m =
          acc ++ histJoin executor p (m + 1) := by
        rw [show histJoin executor p (m + 1) =
              execHist executor (p + 1) ++ histJoin executor (p + 1) m from rfl,
            List.append_assoc]
      rw [ep, edrop, emark, ehist]
      have etake : prefixEvents cfg p ((s :: rest).take (m + 1)) =
          blockEvents cfg p s ++ prefixEvents cfg (p + 1) (rest.take m) := rfl
      have esnap : prefixSnapshots p (m + 1) sts =
          (p, sts) :: prefixSnapshots (p + 1) m (modifyAt SubtaskStatus.mark_done p sts) := rfl
      rw [etake, esnap]
      simp [List.append_assoc]

/-- A loop in which every remaining subtask completes: result `ok`, all
statuses marked done, the histories concatenated in order, the canonical
event sequence, and one final snapshot after the last completion. -/
theorem runLoop_success {Step : Type} (cfg : AgentConfig) (executor : Nat → ExecOutcome Step)
    (remaining : List String) (p : Nat) (sts : List SubtaskStatus) (acc : List Step)
    (hc : ∀ i, i < remaining.length →
      executor (p + 1 + i) = ExecOutcome.completed (execHist executor (p + 1 + i))) :
    runLoop cfg executor p remaining sts acc =
      { result := Except.ok ()
        statuses := markDoneRange sts p remaining.length
        history := acc ++ histJoin executor p remaining.length
        events := prefixEvents cfg p remaining
        snapshots := prefixSnapshots p remaining.length sts ++
          [(p + remaining.length, markDoneRange sts p remaining.length)] } := by
  rw [runLoop_unroll cfg executor remaining remaining.length p sts acc (Nat.le_refl _) hc]
  simp [runLoop]

/-- A loop whose first `m` subtasks complete and whose subtask at position
`m` times out: the statuses hold `m` done marks and one `mark_error` with the
timeout message, the error `asyncio.TimeoutError` is the result, and no
subtask beyond position `m` is invoked. -/
theorem runLoop_timedOut {Step : Type} (cfg : AgentConfig) (executor : Nat → ExecOutcome Step)
    (remaining : List String) (m p : Nat) (sts : List SubtaskStatus) (acc : List Step)
    (hm : m < remaining.length)
    (hc : ∀ i, i < m →
      executor (p + 1 + i) = ExecOutcome.completed (execHist executor (p + 1 + i)))
    (ht : executor (p + m + 1) = ExecOutcome.timedOut) :
    runLoop cfg executor p remaining sts acc =
      { result := Except.error RunError.timedOutErr
        statuses := modifyAt (fun s => s.mark_error (timeoutMsg cfg)) (p + m)
          (markDoneRange sts p m)
        history := acc ++ histJoin executor p m
        events := prefixEvents cfg p (remaining.take m) ++
          [Event.invoke (p + m + 1) (remaining.getD m "")
             ((p + m == 0) && cfg.has_initial_actions),
           Event.markedFailed (p + m + 1) (timeoutMsg cfg)]
        snapshots := prefixSnapshots p m sts ++
          [(p + m, markDoneRange sts p m),
           (p + m + 1, modifyAt (fun s => s.mark_error (timeoutMsg cfg)) (p + m)
              (markDoneRange sts p m))] } := by
  rw [runLoop_unroll cfg executor remaining m p sts acc (Nat.le_of_lt hm) hc]
  have hdrop : remaining.drop m = remaining.getD m "" :: remaining.drop (m + 1) := by
    rw [List.drop_eq_getElem_cons hm]
    simp [List.getD_eq_getElem?_getD, List.getElem?_eq_getElem hm]
  rw [hdrop, runLoop]
  have ht2 : executor (p + m + 1) = ExecOutcome.timedOut := ht
  simp [ht2]

/-- Like `runLoop_timedOut` for an executor exception `e`: the status gets
`mark_error (str e)` and the exception is re-raised. -/
theorem runLoop_raised {Step : Type} (cfg : AgentConfig) (executor : Nat → ExecOutcome Step)
    (remaining : List String) (m p : Nat) (sts : List SubtaskStatus) (acc : List Step)
    (e : String) (hm : m < remaining.length)
    (hc : ∀ i, i < m →
      executor (p + 1 + i) = ExecOutcome.completed (execHist executor (p + 1 + i)))
    (ht : executor (p + m + 1) = ExecOutcome.raised e) :
    runLoop cfg executor p remaining sts acc =
      { result := Except.error (RunError.raisedErr e)
        statuses := modifyAt (fun s => s.mark_error e) (p + m) (markDoneRange sts p m)
        history := acc ++ histJoin executor p m
        events := prefixEvents cfg p (remaining.take m) ++
          [Event.invoke (p + m + 1) (remaining.getD m "")
             ((p + m == 0) && cfg.has_initial_actions),
           Event.markedFailed (p + m + 1) e]
        snapshots := prefixSnapshots p m sts ++
          [(p + m, markDoneRange sts p m),
           (p + m + 1, modifyAt (fun s => s.mark_error e) (p + m) (markDoneRange sts p m))] } := by
  rw [runLoop_unroll cfg executor remaining m p sts acc (Nat.le_of_lt hm) hc]
  have hdrop : remaining.drop m = remaining.getD m "" :: remaining.drop (m + 1) := by
    rw [List.drop_eq_getElem_cons hm]
    simp [List.getD_eq_getElem?_getD, List.getElem?_eq_getElem hm]
  rw [hdrop, runLoop]
  have ht2 : executor (p + m + 1) = ExecOutcome.raised e := ht
  simp [ht2]

/-- The loop body never tears the session down: both cleanup sites live
outside the `for` loop (the `finally` block and the duplicated calls after
it). -/
theorem runLoop_no_teardown {Step : Type} (cfg : AgentConfig)
    (executor : Nat → ExecOutcome Step) :
    ∀ (remaining : List String) (p : Nat) (sts : List SubtaskStatus) (acc : List Step),
      Event.teardown ∉ (runLoop cfg executor p remaining sts acc).events := by
  intro remaining
  induction remaining with
  | nil => intro p sts acc; simp [runLoop]
  | cons s rest ih =>
    intro p sts acc
    rw [runLoop]
    cases executor (p + 1) with
    | completed h => simpa using ih (p + 1) _ _
    | timedOut => simp
    | raised e => simp
    | cancelled => simp

/-- The loop can only fail with a timeout, an executor exception, or a
cancellation — never with the planner's `TypeError`. -/
theorem runLoop_not_planning {Step : Type} (cfg : AgentConfig)
    (executor : Nat → ExecOutcome Step) :
    ∀ (remaining : List String) (p : Nat) (sts : List SubtaskStatus) (acc : List Step)
      (msg : String),
      (runLoop cfg executor p remaining sts acc).result ≠
        Except.error (RunError.planningError msg) := by
  intro remaining
  induction remaining with
  | nil => intro p sts acc msg; simp [runLoop]
  | cons s rest ih =>
    intro p sts acc msg
    rw [runLoop]
    cases executor (p + 1) with
    | completed h => simpa using ih (p + 1) _ _ msg
    | timedOut => simp
    | raised e => simp
    | cancelled => simp

/-- If the loop returns normally, every one of the remaining statuses was
marked done. -/
theorem runLoop_ok_statuses {Step : Type} (cfg : AgentConfig)
    (executor : Nat → ExecOutcome Step) :
    ∀ (remaining : List String) (p : Nat) (sts : List SubtaskStatus) (acc : List Step),
      (runLoop cfg executor p remaining sts acc).result = Except.ok () →
      (runLoop cfg executor p remaining sts acc).statuses =
        markDoneRange sts p remaining.length := by
  intro remaining
  induction remaining with
  | nil => intro p sts acc _; simp [runLoop, markDoneRange]
  | cons s rest ih =>
    intro p sts acc hok
    rw [runLoop] at hok ⊢
    cases hexec : executor (p + 1) with
    | completed h =>
      rw [hexec] at hok
      exact ih (p + 1) _ _ hok
    | timedOut => rw [hexec] at hok; simp at hok
    | raised e => rw [hexec] at hok; simp at hok
    | cancelled => rw [hexec] at hok; simp at hok

/-- Every executor invocation recorded by the loop starting at position `p`
carries a 1-based index in `[p+1, p+remaining.length]`, and its
`initial_actions` flag is exactly "`idx == 1` and the configured
`initial_actions` is truthy". -/
theorem runLoop_invoke_mem {Step : Type} (cfg : AgentConfig)
    (executor : Nat → ExecOutcome Step) :
    ∀ (remaining : List String) (p : Nat) (sts : List SubtaskStatus) (acc : List Step)
      (j : Nat) (s : String) (ia : Bool),
      Event.invoke j s ia ∈ (runLoop cfg executor p remaining sts acc).events →
      p + 1 ≤ j ∧ j ≤ p + remaining.length ∧
        ia = ((j == 1) && cfg.has_initial_actions) := by
  intro remaining
  induction remaining with
  | nil => intro p sts acc j s ia h; simp [runLoop] at h
  | cons st rest ih =>
    intro p sts acc j s ia h
    rw [runLoop] at h
    have hflag : ((p == 0 && cfg.has_initial_actions) : Bool) =
        (((p + 1 == 1) && cfg.has_initial_actions) : Bool) := by
      cases p <;> rfl
    have hself : p + 1 ≤ p + 1 ∧ p + 1 ≤ p + (st :: rest).length ∧
        ((p == 0 && cfg.has_initial_actions) : Bool) =
          (((p + 1 == 1) && cfg.has_initial_actions) : Bool) := by
      refine ⟨Nat.le_refl _, ?_, hflag⟩
      simp only [List.length_cons]
      omega
    cases hexec : executor (p + 1) with
    | completed hh =>
      rw [hexec] at h
      simp only [List.mem_cons] at h
      rcases h with h | h | h | h | h
      · injection h with h1 h2 h3
        subst h1; subst h3
        exact hself
      · cases h
      · cases h
      · cases h
      · obtain ⟨h1, h2, h3⟩ := ih (p + 1) _ _ j s ia h
        refine ⟨by omega, ?_, h3⟩
        simp only [List.length_cons]
        omega
    | timedOut =>
      rw [hexec] at h
      simp only [List.mem_cons, List.mem_singleton, List.not_mem_nil, or_false] at h
      rcases h with h | h
      · injection h with h1 h2 h3
        subst h1; subst h3
        exact hself
      · cases h
    | raised e =>
      rw [hexec] at h
      simp only [List.mem_cons, List.mem_singleton, List.not_mem_nil, or_false] at h
      rcases h with h | h
      · injection h with h1 h2 h3
        subst h1; subst h3
        exact hself
      · cases h
    | cancelled =>
      rw [hexec] at h
      simp only [List.mem_singleton] at h
      injection h with h1 h2 h3
      subst h1; subst h3
      exact hself

/-- The canonical prefix of completed subtasks invokes exactly the 1-based
indices `p+1, …, p+l.length`, in order. -/
theorem invokeIndices_prefixEvents (cfg : AgentConfig) :
    ∀ (l : List String) (p : Nat),
      invokeIndices (prefixEvents cfg p l) = List.range' (p + 1) l.length := by
  intro l
  induction l with
  | nil => intro p; rfl
  | cons s rest ih =>
    intro p
    simp only [prefixEvents, blockEvents, invokeIndices, List.filterMap_append,
      List.length_cons, List.range'_succ]
    rw [show List.filterMap Event.invokeIdx
          [Event.invoke (p + 1) s (p == 0 && cfg.has_initial_actions),
           Event.execReturn (p + 1), Event.markedDone (p + 1), Event.handoff (p + 1)] =
        [p + 1] from rfl]
    have := ih (p + 1)
    simp only [invokeIndices] at this
    rw [this]
    rfl

/-- Every invocation in the canonical prefix has index in `[p+1, p+l.length]`. -/
theorem invoke_mem_prefixEvents (cfg : AgentConfig) :
    ∀ (l : List String) (p j : Nat) (s : String) (ia : Bool),
      Event.invoke j s ia ∈ prefixEvents cfg p l → p + 1 ≤ j ∧ j ≤ p + l.length := by
  intro l
  induction l with
  | nil => intro p j s ia h; simp [prefixEvents] at h
  | cons st rest ih =>
    intro p j s ia h
    simp only [prefixEvents, blockEvents, List.mem_append, List.mem_cons,
      List.mem_singleton, List.not_mem_nil, or_false] at h
    rcases h with (h | h | h | h) | h
    · injection h with h1 h2 h3
      subst h1
      simp only [List.length_cons]
      omega
    · cases h
    · cases h
    · cases h
    · obtain ⟨h1, h2⟩ := ih (p + 1) j s ia h
      simp only [List.length_cons]
      omega

/-- The events at the seam between completed subtask `i` (1-based) and the
next one: executor return, `mark_done`, `_keep_last_page` handoff, then the
invocation of subtask `i+1`. -/
def seamEvents (cfg : AgentConfig) (i : Nat) (name : String) : List Event :=
  [Event.execReturn i, Event.markedDone i, Event.handoff i,
   Event.invoke (i + 1) name ((i == 0) && cfg.has_initial_actions)]

/-- In a canonical prefix covering positions `q` and `q+1`, the seam of
subtask `p+q+1` appears as a contiguous run of events. -/
theorem prefixEvents_decompose (cfg : AgentConfig) :
    ∀ (l : List String) (p q : Nat), q + 2 ≤ l.length →
      ∃ pre suf, prefixEvents cfg p l =
        pre ++ seamEvents cfg (p + q + 1) (l.getD (q + 1) "") ++ suf := by
  intro l
  induction l with
  | nil => intro p q h; simp at h
  | cons s rest ih =>
    intro p q hq
    match q, rest with
    | 0, [] => simp at hq
    | 0, t :: rest2 =>
      exact ⟨[Event.invoke (p + 1) s (p == 0 && cfg.has_initial_actions)],
        [Event.execReturn (p + 2), Event.markedDone (p + 2), Event.handoff (p + 2)]
          ++ prefixEvents cfg (p + 2) rest2, rfl⟩
    | Nat.succ q2, rest =>
      have hlen : q2 + 2 ≤ rest.length := by
        simp only [List.length_cons] at hq
        omega
      obtain ⟨pre, suf, hdec⟩ := ih (p + 1) q2 hlen
      refine ⟨blockEvents cfg p s ++ pre, suf, ?_⟩
      rw [prefixEvents, hdec]
      have e1 : p + 1 + q2 + 1 = p + (q2 + 1) + 1 := by omega
      have e2 : rest.getD (q2 + 1) "" = (s :: rest).getD (q2 + 1 + 1) "" := rfl
      rw [e1, e2]
      simp [List.append_assoc]

/-! ## The status-list invariant (claim about `SubtaskStatus` states) -/

/-- No representable `SubtaskStatus` is in a "running" state: the dataclass
only encodes pending (defaults), done, and failed. -/
theorem isRunning_false (s : SubtaskStatus) : isRunning s = false := by
  rcases s with ⟨name, done, error⟩
  cases done <;> cases error <;> rfl

/-- The invariant the spec states for the status list when the current
subtask is at 0-based position `p`: at most one status is running (here: in
fact none can be), every status before `p` is terminal, and every status at
or after `p` is pending. -/
def statusInvariant (p : Nat) (sts : List SubtaskStatus) : Prop :=
  sts.countP isRunning ≤ 1 ∧
  (∀ j, j < p → isTerminal (sts.getD j default) = true) ∧
  (∀ j, p ≤ j → j < sts.length → isPending (sts.getD j default) = true)

theorem countP_isRunning_zero (sts : List SubtaskStatus) : sts.countP isRunning = 0 :=
  List.countP_eq_zero.mpr fun a _ => by simp [isRunning_false a]

/-- Every status snapshot the loop passes through satisfies the invariant,
provided the entry state does. -/
theorem runLoop_snapshots_invariant {Step : Type} (cfg : AgentConfig)
    (executor : Nat → ExecOutcome Step) :
    ∀ (remaining : List String) (p : Nat) (sts : List SubtaskStatus) (acc : List Step),
      sts.length = p + remaining.length →
      (∀ j, j < p → isTerminal (sts.getD j default) = true) →
      (∀ j, p ≤ j → j < sts.length → isPending (sts.getD j default) = true) →
      ∀ snap ∈ (runLoop cfg executor p remaining sts acc).snapshots,
        statusInvariant snap.1 snap.2 := by
  intro remaining
  induction remaining with
  | nil =>
    intro p sts acc _ hterm hpend snap hsnap
    simp only [runLoop, List.mem_singleton] at hsnap
    subst hsnap
    exact ⟨by simp [countP_isRunning_zero], hterm, hpend⟩
  | cons s rest ih =>
    intro p sts acc hlen hterm hpend snap hsnap
    have hp : p < sts.length := by simp only [List.length_cons] at hlen; omega
    have hterm2 : ∀ j, j < p + 1 →
        isTerminal ((modifyAt SubtaskStatus.mark_done p sts).getD j default) = true := by
      intro j hj
      by_cases hjp : j = p
      · subst hjp
        rw [getD_modifyAt_self _ _ _ _ hp]
        simp [isTerminal, SubtaskStatus.mark_done]
      · rw [getD_modifyAt_ne _ _ _ _ _ hjp]
        exact hterm j (by omega)
    have hpend2 : ∀ j, p + 1 ≤ j → j < (modifyAt SubtaskStatus.mark_done p sts).length →
        isPending ((modifyAt SubtaskStatus.mark_done p sts).getD j default) = true := by
      intro j hj hjl
      rw [modifyAt_length] at hjl
      rw [getD_modifyAt_ne _ _ _ _ _ (by omega)]
      exact hpend j (by omega) hjl
    rw [runLoop] at hsnap
    cases hexec : executor (p + 1) with
    | completed h =>
      rw [hexec] at hsnap
      simp only [List.mem_cons] at hsnap
      rcases hsnap with hsnap | hsnap
      · subst hsnap
        exact ⟨by simp [countP_isRunning_zero], hterm, hpend⟩
      · exact ih (p + 1) _ (acc ++ h)
          (by rw [modifyAt_length]; simp only [List.length_cons] at hlen; omega)
          hterm2 hpend2 snap hsnap
    | timedOut =>
      rw [hexec] at hsnap
      simp only [List.mem_cons, List.mem_singleton, List.not_mem_nil, or_false] at hsnap
      rcases hsnap with hsnap | hsnap
      · subst hsnap
        exact ⟨by simp [countP_isRunning_zero], hterm, hpend⟩
      · subst hsnap
        refine ⟨by simp [countP_isRunning_zero], ?_, ?_⟩
        · intro j hj
          by_cases hjp : j = p
          · subst hjp
            rw [getD_modifyAt_self _ _ _ _ hp]
            simp [isTerminal, SubtaskStatus.mark_error]
          · rw [getD_modifyAt_ne _ _ _ _ _ hjp]
            exact hterm j (by omega)
        · intro j hj hjl
          rw [modifyAt_length] at hjl
          rw [getD_modifyAt_ne _ _ _ _ _ (by omega)]
          exact hpend j (by omega) hjl
    | raised e =>
      rw [hexec] at hsnap
      simp only [List.mem_cons, List.mem_singleton, List.not_mem_nil, or_false] at hsnap
      rcases hsnap with hsnap | hsnap
      · subst hsnap
        exact ⟨by simp [countP_isRunning_zero], hterm, hpend⟩
      · subst hsnap
        refine ⟨by simp [countP_isRunning_zero], ?_, ?_⟩
        · intro j hj
          by_cases hjp : j = p
          · subst hjp
            rw [getD_modifyAt_self _ _ _ _ hp]
            simp [isTerminal, SubtaskStatus.mark_error]
          · rw [getD_modifyAt_ne _ _ _ _ _ hjp]
            exact hterm j (by omega)
        · intro j hj hjl
          rw [modifyAt_length] at hjl
          rw [getD_modifyAt_ne _ _ _ _ _ (by omega)]
          exact hpend j (by omega) hjl
    | cancelled =>
      rw [hexec] at hsnap
      simp only [List.mem_singleton] at hsnap
      subst hsnap
      exact ⟨by simp [countP_isRunning_zero], hterm, hpend⟩

/-- At run start every status created from the checklist is pending. -/
theorem initial_statuses_pending (l : List String) :
    ∀ j, j < l.length →
      isPending ((l.map (fun s => ({ name := s } : SubtaskStatus))).getD j default) = true := by
  intro j hj
  have hj2 : j < (l.map (fun s => ({ name := s } : SubtaskStatus))).length := by simpa using hj
  rw [List.getD_eq_getElem?_getD, List.getElem?_eq_getElem hj2]
  simp [isPending]

theorem teardownCount_zero_of_not_mem (evs : List Event) (h : Event.teardown ∉ evs) :
    teardownCount evs = 0 :=
  List.countP_eq_zero.mpr fun a ha hb => h (by rwa [show a = Event.teardown from by
    simpa using (beq_iff_eq.mp (by simpa using hb))] at ha)

theorem run_of_loop_ok {Step : Type} (cfg : AgentConfig) (pr : List PyVal)
    (checklist : List String) (executor : Nat → ExecOutcome Step)
    (hplan : ChecklistPlanner.plan_validate pr = Except.ok checklist)
    (hok : (runLoop cfg executor 0 checklist
        (checklist.map (fun s => ({ name := s } : SubtaskStatus))) []).result = Except.ok ()) :
    HierarchicalAgent.run cfg pr executor =
      { result := Except.ok
          { history := (runLoop cfg executor 0 checklist
              (checklist.map (fun s => ({ name := s } : SubtaskStatus))) []).history
            subtask_history := (runLoop cfg executor 0 checklist
              (checklist.map (fun s => ({ name := s } : SubtaskStatus))) []).statuses }
        events := Event.planned :: ((runLoop cfg executor 0 checklist
            (checklist.map (fun s => ({ name := s } : SubtaskStatus))) []).events ++
            [Event.teardown, Event.teardown])
        snapshots := (runLoop cfg executor 0 checklist
            (checklist.map (fun s => ({ name := s } : SubtaskStatus))) []).snapshots } := by
  rw [HierarchicalAgent.run, hplan]
  simp only [hok]

theorem run_of_loop_error {Step : Type} (cfg : AgentConfig) (pr : List PyVal)
    (checklist : List String) (executor : Nat → ExecOutcome Step) (e : RunError)
    (hplan : ChecklistPlanner.plan_validate pr = Except.ok checklist)
    (herr : (runLoop cfg executor 0 checklist
        (checklist.map (fun s => ({ name := s } : SubtaskStatus))) []).result =
        Except.error e) :
    HierarchicalAgent.run cfg pr executor =
      { result := Except.error e
        events := Event.planned :: ((runLoop cfg executor 0 checklist
            (checklist.map (fun s => ({ name := s } : SubtaskStatus))) []).events ++
            [Event.teardown])
        snapshots := (runLoop cfg executor 0 checklist
            (checklist.map (fun s => ({ name := s } : SubtaskStatus))) []).snapshots } := by
  rw [HierarchicalAgent.run, hplan]
  simp only [herr]

/-- The element at a valid position of the initial status list. -/
theorem initial_statuses_getD (l : List String) (j : Nat) (hj : j < l.length) :
    (l.map (fun s => ({ name := s } : SubtaskStatus))).getD j default =
      { name := l.getD j "" } := by
  have hj2 : j < (l.map (fun s => ({ name := s } : SubtaskStatus))).length := by simpa using hj
  rw [List.getD_eq_getElem?_getD, List.getElem?_eq_getElem hj2]
  rw [List.getD_eq_getElem?_getD, List.getElem?_eq_getElem hj]
  simp

/-! # The claims -/

/-- **C1** (corrected), counterexample to the claim as stated: teardown
(`session.kill()` + `playwright.stop()`) is not invoked exactly once on every
exit path.  On a one-subtask run that succeeds, it is invoked twice — once by
the `finally` block (lines 218-223) and once more by the duplicated cleanup
after it (lines 225-228) — and on a planning failure it is invoked zero
times, because `self.planner.plan` (line 93) is awaited before the session
exists and outside the `try/finally`. -/
theorem claim_C1_counterexample :
    teardownCount (HierarchicalAgent.run defaultCfg [PyVal.str "open the search page"]
      (fun _ => ExecOutcome.completed ([0] : List Nat))).events = 2 ∧
    teardownCount (HierarchicalAgent.run defaultCfg [PyVal.str "open the search page"]
      (fun _ => ExecOutcome.completed ([0] : List Nat))).events ≠ 1 ∧
    teardownCount (HierarchicalAgent.run defaultCfg [PyVal.other 7]
      (fun _ => ExecOutcome.completed ([0] : List Nat))).events = 0 := by
  refine ⟨by decide, by decide, by decide⟩

/-- **C1** (corrected), the amended claim: on every run, the session
teardown operation is invoked zero times when planning fails (the planner is
awaited before the session is created), exactly once on every failing exit
of the subtask loop (timeout, executor exception, cancellation — the
`finally` block), and exactly twice on the success path (the `finally` block
plus the duplicated cleanup after it).  In particular no exit path that
reaches the loop skips teardown. -/
theorem claim_C1_amended {Step : Type} (cfg : AgentConfig) (pr : List PyVal)
    (executor : Nat → ExecOutcome Step) :
    ((∃ msg, (HierarchicalAgent.run cfg pr executor).result =
        Except.error (RunError.planningError msg)) →
      teardownCount (HierarchicalAgent.run cfg pr executor).events = 0) ∧
    (∀ e, (HierarchicalAgent.run cfg pr executor).result = Except.error e →
      (∀ msg, e ≠ RunError.planningError msg) →
      teardownCount (HierarchicalAgent.run cfg pr executor).events = 1) ∧
    (∀ r, (HierarchicalAgent.run cfg pr executor).result = Except.ok r →
      teardownCount (HierarchicalAgent.run cfg pr executor).events = 2) := by
  rw [HierarchicalAgent.run]
  cases hplan : ChecklistPlanner.plan_validate pr with
  | error e =>
    refine ⟨fun _ => rfl, ?_, ?_⟩
    · intro e2 he2 hne
      exfalso
      injection he2 with h
      exact hne e h.symm
    · intro r hr
      cases hr
  | ok checklist =>
    cases hres : (runLoop cfg executor 0 checklist
        (checklist.map (fun s => ({ name := s } : SubtaskStatus))) []).result with
    | ok u =>
      simp only [hres]
      refine ⟨?_, ?_, ?_⟩
      · intro ⟨msg, hmsg⟩
        cases hmsg
      · intro e2 he2 _
        cases he2
      · intro r _
        have h0 := teardownCount_zero_of_not_mem _
          (runLoop_no_teardown cfg executor checklist 0
            (checklist.map (fun s => ({ name := s } : SubtaskStatus))) [])
        simp only [teardownCount] at h0
        simp [teardownCount, List.countP_cons, List.countP_append, h0,
          show (Event.planned == Event.teardown) = false from rfl]
    | error e =>
      simp only [hres]
      refine ⟨?_, ?_, ?_⟩
      · intro ⟨msg, hmsg⟩
        exfalso
        injection hmsg with h
        rw [h] at hres
        exact runLoop_not_planning cfg executor checklist 0 _ [] msg hres
      · intro e2 _ _
        have h0 := teardownCount_zero_of_not_mem _
          (runLoop_no_teardown cfg executor checklist 0
            (checklist.map (fun s => ({ name := s } : SubtaskStatus))) [])
        simp only [teardownCount] at h0
        simp [teardownCount, List.countP_cons, List.countP_append, h0,
          show (Event.planned == Event.teardown) = false from rfl]
      · intro r hr
        cases hr

/-- **C2** (confirmed): if the executor call for subtask `k` times out or
raises while every earlier subtask completed, then the run aborts: the
status at position `k-1` is marked failed (its `error` field set to
`"timed out after <timeout>s"` on the timeout, to the exception text on the
raise, `done` still false), the error propagates to the caller as the run's
result, and no subtask with index greater than `k` is ever invoked. -/
theorem claim_C2 {Step : Type} (cfg : AgentConfig) (pr : List PyVal)
    (checklist : List String) (executor : Nat → ExecOutcome Step) (k : Nat)
    (hplan : ChecklistPlanner.plan_validate pr = Except.ok checklist)
    (hk1 : 1 ≤ k) (hkN : k ≤ checklist.length)
    (hpre : ∀ j, 1 ≤ j → j < k → ∃ h, executor j = ExecOutcome.completed h)
    (hfail : executor k = ExecOutcome.timedOut ∨ ∃ e, executor k = ExecOutcome.raised e) :
    ∃ msg,
      ((executor k = ExecOutcome.timedOut → msg = timeoutMsg cfg ∧
          (HierarchicalAgent.run cfg pr executor).result =
            Except.error RunError.timedOutErr) ∧
       (∀ e, executor k = ExecOutcome.raised e → msg = e ∧
          (HierarchicalAgent.run cfg pr executor).result =
            Except.error (RunError.raisedErr e))) ∧
      (∃ sts, (k, sts) ∈ (HierarchicalAgent.run cfg pr executor).snapshots ∧
        (sts.getD (k - 1) default).error = some msg ∧
        (sts.getD (k - 1) default).done = false) ∧
      (∀ j s ia, Event.invoke j s ia ∈ (HierarchicalAgent.run cfg pr executor).events →
        j ≤ k) := by
  obtain ⟨m, rfl⟩ : ∃ m, k = m + 1 := ⟨k - 1, by omega⟩
  have hm : m < checklist.length := by omega
  have hc : ∀ i, i < m →
      executor (0 + 1 + i) = ExecOutcome.completed (execHist executor (0 + 1 + i)) := by
    intro i hi
    obtain ⟨h, hh⟩ := hpre (i + 1) (by omega) (by omega)
    have e1 : 0 + 1 + i = i + 1 := by omega
    have hex : execHist executor (i + 1) = h := by rw [execHist, hh]
    rw [e1, hh, hex]
  have hinitlen : (checklist.map (fun s => ({ name := s } : SubtaskStatus))).length =
      checklist.length := by simp
  -- status facts shared by the two failure cases
  have hstatus : ∀ msg : String,
      ((modifyAt (fun s => s.mark_error msg) m
          (markDoneRange (checklist.map (fun s => ({ name := s } : SubtaskStatus))) 0 m)).getD
        m default).error = some msg ∧
      ((modifyAt (fun s => s.mark_error msg) m
          (markDoneRange (checklist.map (fun s => ({ name := s } : SubtaskStatus))) 0 m)).getD
        m default).done = false := by
    intro msg
    have hlen2 : m < (markDoneRange
        (checklist.map (fun s => ({ name := s } : SubtaskStatus))) 0 m).length := by
      rw [markDoneRange_length, hinitlen]; omega
    rw [getD_modifyAt_self _ _ _ _ hlen2]
    have hmark : (markDoneRange (checklist.map (fun s => ({ name := s } : SubtaskStatus)))
        0 m).getD m default =
        (checklist.map (fun s => ({ name := s } : SubtaskStatus))).getD m default := by
      rw [markDoneRange_getD _ _ _ _ _ (by rw [hinitlen]; omega)]
      rw [if_neg (by omega)]
    rw [hmark, initial_statuses_getD _ _ hm]
    exact ⟨rfl, rfl⟩
  rcases hfail with ht | ⟨e, ht⟩
  · -- timeout case
    have ht0 : executor (0 + m + 1) = ExecOutcome.timedOut := by
      rw [show (0 : Nat) + m + 1 = m + 1 from by omega]; exact ht
    have hloop := runLoop_timedOut cfg executor checklist m 0
      (checklist.map (fun s => ({ name := s } : SubtaskStatus))) [] hm hc ht0
    simp only [Nat.zero_add] at hloop
    have hres : (runLoop cfg executor 0 checklist
        (checklist.map (fun s => ({ name := s } : SubtaskStatus))) []).result =
        Except.error RunError.timedOutErr := by rw [hloop]
    have hrun := run_of_loop_error cfg pr checklist executor RunError.timedOutErr hplan hres
    refine ⟨timeoutMsg cfg, ⟨fun _ => ⟨rfl, by rw [hrun]⟩, fun e2 he2 => ?_⟩, ?_, ?_⟩
    · rw [ht] at he2; cases he2
    · refine ⟨modifyAt (fun s => s.mark_error (timeoutMsg cfg)) m
        (markDoneRange (checklist.map (fun s => ({ name := s } : SubtaskStatus))) 0 m),
        ?_, ?_, ?_⟩
      · rw [hrun]
        show _ ∈ (runLoop cfg executor 0 checklist
          (checklist.map (fun s => ({ name := s } : SubtaskStatus))) []).snapshots
        rw [hloop]
        simp
      · simpa using (hstatus (timeoutMsg cfg)).1
      · simpa using (hstatus (timeoutMsg cfg)).2
    · intro j s ia hj
      rw [hrun] at hj
      simp only [List.mem_cons, List.mem_append, List.mem_singleton,
        List.not_mem_nil, or_false] at hj
      rcases hj with hj | hj | hj
      · cases hj
      · rw [hloop] at hj
        simp only [List.mem_append, List.mem_cons, List.mem_singleton,
          List.not_mem_nil, or_false] at hj
        rcases hj with hj | hj | hj
        · have := invoke_mem_prefixEvents cfg _ _ _ _ _ hj
          have hlt : (checklist.take m).length = m := by
            rw [List.length_take]; omega
          omega
        · injection hj with h1 h2 h3
          omega
        · cases hj
      · cases hj
  · -- executor-exception case
    have ht0 : executor (0 + m + 1) = ExecOutcome.raised e := by
      rw [show (0 : Nat) + m + 1 = m + 1 from by omega]; exact ht
    have hloop := runLoop_raised cfg executor checklist m 0
      (checklist.map (fun s => ({ name := s } : SubtaskStatus))) [] e hm hc ht0
    simp only [Nat.zero_add] at hloop
    have hres : (runLoop cfg executor 0 checklist
        (checklist.map (fun s => ({ name := s } : SubtaskStatus))) []).result =
        Except.error (RunError.raisedErr e) := by rw [hloop]
    have hrun := run_of_loop_error cfg pr checklist executor (RunError.raisedErr e) hplan hres
    refine ⟨e, ⟨fun ht2 => ?_, fun e2 he2 => ?_⟩, ?_, ?_⟩
    · rw [ht] at ht2; cases ht2
    · rw [ht] at he2
      injection he2 with h1
      subst h1
      exact ⟨rfl, by rw [hrun]⟩
    · refine ⟨modifyAt (fun s => s.mark_error e) m
        (markDoneRange (checklist.map (fun s => ({ name := s } : SubtaskStatus))) 0 m),
        ?_, ?_, ?_⟩
      · rw [hrun]
        show _ ∈ (runLoop cfg executor 0 checklist
          (checklist.map (fun s => ({ name := s } : SubtaskStatus))) []).snapshots
        rw [hloop]
        simp
      · simpa using (hstatus e).1
      · simpa using (hstatus e).2
    · intro j s ia hj
      rw [hrun] at hj
      simp only [List.mem_cons, List.mem_append, List.mem_singleton,
        List.not_mem_nil, or_false] at hj
      rcases hj with hj | hj | hj
      · cases hj
      · rw [hloop] at hj
        simp only [List.mem_append, List.mem_cons, List.mem_singleton,
          List.not_mem_nil, or_false] at hj
        rcases hj with hj | hj | hj
        · have := invoke_mem_prefixEvents cfg _ _ _ _ _ hj
          have hlt : (checklist.take m).length = m := by
            rw [List.length_take]; omega
          omega
        · injection hj with h1 h2 h3
          omega
        · cases hj
      · cases hj

/-- The executor of the spec's timeout scenario: subtask 2 times out, every
other subtask completes with a one-step history. -/
def c2exec : Nat → ExecOutcome Nat :=
  fun j => if j == 2 then ExecOutcome.timedOut else ExecOutcome.completed [j]

def c2plan : List PyVal :=
  [PyVal.str "open search page", PyVal.str "apply filter X", PyVal.str "select first result"]

/-- Witness for C2 at the spec's own scenario: a three-item checklist whose
second subtask times out with the default 60.0-second deadline. -/
theorem claim_C2_witness :
    ∃ msg,
      ((c2exec 2 = ExecOutcome.timedOut → msg = timeoutMsg defaultCfg ∧
          (HierarchicalAgent.run defaultCfg c2plan c2exec).result =
            Except.error RunError.timedOutErr) ∧
       (∀ e, c2exec 2 = ExecOutcome.raised e → msg = e ∧
          (HierarchicalAgent.run defaultCfg c2plan c2exec).result =
            Except.error (RunError.raisedErr e))) ∧
      (∃ sts, (2, sts) ∈ (HierarchicalAgent.run defaultCfg c2plan c2exec).snapshots ∧
        (sts.getD (2 - 1) default).error = some msg ∧
        (sts.getD (2 - 1) default).done = false) ∧
      (∀ j s ia, Event.invoke j s ia ∈ (HierarchicalAgent.run defaultCfg c2plan c2exec).events →
        j ≤ 2) :=
  claim_C2 defaultCfg c2plan
    ["open search page", "apply filter X", "select first result"] c2exec 2 rfl
    (by decide) (by decide)
    (fun j h1 h2 => by
      have hj : j = 1 := by omega
      subst hj
      exact ⟨[1], rfl⟩)
    (Or.inl rfl)

/-- **C3** (corrected), counterexample to the claim as stated: an *empty*
planner result does not fail checklist acquisition.  `plan`'s only check is
`all(isinstance(step, str) ...)`, which an empty list passes vacuously, so
`plan_validate [] = ok []` and the run proceeds to a "successful" result
with an empty history and no statuses — contradicting both "fails …
whenever the planning service returns a malformed (non-string-element) *or
empty* result" and "a successful run is only entered with a *non-empty*
checklist". -/
theorem claim_C3_counterexample :
    ChecklistPlanner.plan_validate [] = Except.ok [] ∧
    (HierarchicalAgent.run defaultCfg []
        (fun _ => ExecOutcome.completed ([] : List Nat))).result =
      Except.ok { history := [], subtask_history := [] } :=
  ⟨rfl, rfl⟩

/-- **C3** (corrected), the amended claim: checklist acquisition fails (with
the planner's `TypeError`) exactly when some element of the planning
service's result is not a string, and in that case no subtask is ever
invoked; a result consisting entirely of strings — including the empty
result — is accepted as the checklist. -/
theorem claim_C3_amended {Step : Type} (cfg : AgentConfig) (pr : List PyVal)
    (executor : Nat → ExecOutcome Step) :
    (pr.all PyVal.isStr = false →
       (HierarchicalAgent.run cfg pr executor).result =
         Except.error (RunError.planningError "Planner must return List[str]") ∧
       invokeIndices (HierarchicalAgent.run cfg pr executor).events = []) ∧
    (pr.all PyVal.isStr = true →
       ChecklistPlanner.plan_validate pr = Except.ok (pr.map PyVal.asStr)) := by
  constructor
  · intro hall
    rw [HierarchicalAgent.run, ChecklistPlanner.plan_validate, if_neg (by simp [hall])]
    exact ⟨rfl, rfl⟩
  · intro hall
    rw [ChecklistPlanner.plan_validate, if_pos hall]

/-- Whether the close succeeds or raises (the tab vanished), the tab is
closed afterwards and the exception never escapes the `try/except`. -/
theorem try_close_eq (f : Nat → Bool) (p : Page) :
    try_close f p = { p with is_closed := true } := by
  by_cases hf : f p.id <;> simp [try_close, close_page, hf]

theorem filter_open_map_close (c : Page → Bool) (l : List Page) :
    (l.map (fun p => if c p then { p with is_closed := true } else p)).filter
      (fun p => !p.is_closed) =
    (l.filter (fun p => !p.is_closed)).filter (fun p => !(c p)) := by
  induction l with
  | nil => rfl
  | cons a t ih =>
    by_cases hc : c a <;> by_cases ha : a.is_closed <;>
      simp [hc, ha, ih]

theorem filter_not_mem_ids (l : List Page) (hnd : (l.map Page.id).Nodup) (h : l ≠ []) :
    l.filter (fun p => !((l.dropLast.map Page.id).contains p.id)) = [l.getLast h] := by
  have hsplit : l.dropLast ++ [l.getLast h] = l := List.dropLast_append_getLast h
  have h2 : (l.getLast h).id ∉ l.dropLast.map Page.id := by
    have hmap : l.map Page.id = l.dropLast.map Page.id ++ [(l.getLast h).id] := by
      conv_lhs => rw [← hsplit]
      rw [List.map_append]
      rfl
    rw [hmap] at hnd
    exact fun hmem => (List.disjoint_of_nodup_append hnd) hmem (List.mem_singleton_self _)
  generalize hg : l.dropLast.map Page.id = ids at h2 ⊢
  have hc : ids.contains (l.getLast h).id = false := by
    cases hcc : ids.contains (l.getLast h).id
    · rfl
    · exact absurd (List.elem_iff.mp hcc) h2
  conv_lhs => rw [← hsplit]
  rw [List.filter_append]
  have h1 : l.dropLast.filter (fun p => !(ids.contains p.id)) = [] := by
    rw [List.filter_eq_nil_iff]
    intro a ha
    have hmem : a.id ∈ ids := by
      rw [← hg]; exact List.mem_map_of_mem Page.id ha
    have hc2 : ids.contains a.id = true := List.elem_iff.mpr hmem
    show ¬((!(ids.contains a.id)) = true)
    rw [hc2]
    decide
  have h3 : [l.getLast h].filter (fun p => !(ids.contains p.id)) = [l.getLast h] :=
    List.filter_eq_self.mpr (fun a hmem => by
      rw [List.mem_singleton] at hmem
      subst hmem
      rw [hc]
      rfl)
  rw [h1, h3]
  rfl

/-- **C4** (confirmed): for a context whose pages have distinct identities,
`_keep_last_page` with at least one not-yet-closed tab returns the most
recently opened open tab as the new active page and leaves exactly that one
tab open; with no open tab it returns `None` and leaves the context
untouched (raising nothing); and close failures ("vanished meanwhile") are
swallowed — the outcome does not depend on which closes fail. -/
theorem claim_C4 (closeFails : Nat → Bool) (pages : List Page)
    (hnodup : (pages.map Page.id).Nodup) :
    (∀ h : pages.filter (fun p => !p.is_closed) ≠ [],
      (keep_last_page closeFails pages).1 =
        some ((pages.filter (fun p => !p.is_closed)).getLast h) ∧
      (keep_last_page closeFails pages).2.filter (fun p => !p.is_closed) =
        [(pages.filter (fun p => !p.is_closed)).getLast h]) ∧
    (pages.filter (fun p => !p.is_closed) = [] →
      keep_last_page closeFails pages = (none, pages)) ∧
    (∀ g : Nat → Bool, keep_last_page g pages = keep_last_page closeFails pages) := by
  refine ⟨?_, ?_, ?_⟩
  · intro h
    have hopen : (pages.map Page.id).Nodup := hnodup
    have hnd2 : ((pages.filter (fun p => !p.is_closed)).map Page.id).Nodup :=
      List.Nodup.sublist (List.Sublist.map Page.id (List.filter_sublist pages)) hnodup
    rw [keep_last_page]
    rw [dif_neg h]
    refine ⟨rfl, ?_⟩
    show (pages.map fun p =>
        if (((pages.filter (fun p => !p.is_closed)).dropLast.map Page.id).contains p.id)
        then try_close closeFails p else p).filter (fun p => !p.is_closed) = _
    simp only [try_close_eq]
    rw [filter_open_map_close
      (fun p => (((pages.filter (fun p => !p.is_closed)).dropLast.map Page.id).contains p.id))
      pages]
    exact filter_not_mem_ids (pages.filter (fun p => !p.is_closed)) hnd2 h
  · intro hempty
    rw [keep_last_page, dif_pos hempty]
  · intro g
    simp [keep_last_page, try_close_eq]

/-- Witness for C4: four tabs, one of them already closed, one close call
failing; the most recently opened tab (id 4) is returned and is the only
tab left open. -/
theorem claim_C4_witness :
    (∀ h : ([⟨1, false⟩, ⟨2, true⟩, ⟨3, false⟩, ⟨4, false⟩] : List Page).filter
        (fun p => !p.is_closed) ≠ [],
      (keep_last_page (fun i => i == 1)
          [⟨1, false⟩, ⟨2, true⟩, ⟨3, false⟩, ⟨4, false⟩]).1 =
        some ((([⟨1, false⟩, ⟨2, true⟩, ⟨3, false⟩, ⟨4, false⟩] : List Page).filter
          (fun p => !p.is_closed)).getLast h) ∧
      (keep_last_page (fun i => i == 1)
          [⟨1, false⟩, ⟨2, true⟩, ⟨3, false⟩, ⟨4, false⟩]).2.filter
          (fun p => !p.is_closed) =
        [(([⟨1, false⟩, ⟨2, true⟩, ⟨3, false⟩, ⟨4, false⟩] : List Page).filter
          (fun p => !p.is_closed)).getLast h]) ∧
    (([⟨1, false⟩, ⟨2, true⟩, ⟨3, false⟩, ⟨4, false⟩] : List Page).filter
        (fun p => !p.is_closed) = [] →
      keep_last_page (fun i => i == 1) [⟨1, false⟩, ⟨2, true⟩, ⟨3, false⟩, ⟨4, false⟩] =
        (none, [⟨1, false⟩, ⟨2, true⟩, ⟨3, false⟩, ⟨4, false⟩])) ∧
    (∀ g : Nat → Bool,
      keep_last_page g [⟨1, false⟩, ⟨2, true⟩, ⟨3, false⟩, ⟨4, false⟩] =
        keep_last_page (fun i => i == 1) [⟨1, false⟩, ⟨2, true⟩, ⟨3, false⟩, ⟨4, false⟩]) :=
  claim_C4 (fun i => i == 1) [⟨1, false⟩, ⟨2, true⟩, ⟨3, false⟩, ⟨4, false⟩] (by decide)

/-- **C5** (corrected), counterexample to the claim as stated: the progress
digest does not annotate only the entry at the current index as "coming up
next".  With two pending statuses and current index 1, the entry at position
2 — strictly after the current index — is also rendered with
"(COMING UP NEXT)", because the loop's `else` branch (line 158-159) applies
to every `j >= idx`, not only `j == idx`. -/
theorem claim_C5_counterexample :
    renderProgress [{ name := "a" }, { name := "b" }] 1 =
      ["🔄 Step 1: a (COMING UP NEXT)", "🔄 Step 2: b (COMING UP NEXT)"] ∧
    (renderProgress [{ name := "a" }, { name := "b" }] 1).getD 1 "" =
      "🔄 Step 2: b (COMING UP NEXT)" :=
  ⟨rfl, rfl⟩

/-- **C5** (corrected), the amended claim: the rendered digest annotates
each entry independently — an entry before the current index is annotated
done if marked done, failed-with-its-reason if it carries a truthy error,
and is *omitted* otherwise; every entry at **or after** the current index
(not only the entry at the index) is annotated "coming up next". -/
theorem claim_C5_amended (idx : Nat) (statuses : List SubtaskStatus) :
    renderProgress statuses idx =
      (numberFrom 1 statuses).flatMap (fun q => lineFor idx q.1 q.2) ∧
    (∀ j st, j < idx → st.done = true → lineFor idx j st = [doneLine j st]) ∧
    (∀ j st, j < idx → st.done = false → pyTruthy st.error = true →
      lineFor idx j st = [errLine j st]) ∧
    (∀ j st, j < idx → st.done = false → pyTruthy st.error = false →
      lineFor idx j st = []) ∧
    (∀ j st, idx ≤ j → lineFor idx j st = [comingLine j st]) := by
  refine ⟨?_, ?_, ?_, ?_, ?_⟩
  · rw [renderProgress]
    generalize 1 = j
    induction statuses generalizing j with
    | nil => rfl
    | cons st rest ih => simp [progressLines, numberFrom, ih]
  · intro j st hj hdone
    rw [lineFor, if_pos hj, if_pos hdone]
  · intro j st hj hdone herr
    rw [lineFor, if_pos hj, if_neg (by simp [hdone]), if_pos herr]
  · intro j st hj hdone herr
    rw [lineFor, if_pos hj, if_neg (by simp [hdone]), if_neg (by simp [herr])]
  · intro j st hj
    rw [lineFor, if_neg (by omega)]

/-- `histJoin` is the flat concatenation of the per-subtask histories. -/
theorem histJoin_eq {Step : Type} (executor : Nat → ExecOutcome Step) :
    ∀ (m p : Nat), histJoin executor p m =
      ((List.range m).map (fun i => execHist executor (p + 1 + i))).flatten := by
  intro m
  induction m with
  | zero => intro p; rfl
  | succ n ih =>
    intro p
    rw [histJoin, List.range_succ_eq_map, List.map_cons, List.flatten_cons, List.map_map]
    have e1 : execHist executor (p + 1 + 0) = execHist executor (p + 1) := by
      rw [Nat.add_zero]
    rw [e1, ih (p + 1)]
    have e2 : ((fun i => execHist executor (p + 1 + i)) ∘ Nat.succ) =
        fun i => execHist executor (p + 1 + 1 + i) := by
      funext i
      show execHist executor (p + 1 + (i + 1)) = execHist executor (p + 1 + 1 + i)
      rw [show p + 1 + (i + 1) = p + 1 + 1 + i from by omega]
    rw [e2]

/-- **C6** (confirmed): on a run in which every subtask completes, the
returned trace's step sequence equals the concatenation, in subtask order
`1..N`, of the step histories returned by each subtask's executor call —
nothing added, dropped, or reordered. -/
theorem claim_C6 {Step : Type} (cfg : AgentConfig) (pr : List PyVal)
    (checklist : List String) (executor : Nat → ExecOutcome Step)
    (hplan : ChecklistPlanner.plan_validate pr = Except.ok checklist)
    (hc : ∀ i, i < checklist.length → ∃ h, executor (i + 1) = ExecOutcome.completed h) :
    ∃ r, (HierarchicalAgent.run cfg pr executor).result = Except.ok r ∧
      r.history =
        ((List.range checklist.length).map (fun i => execHist executor (i + 1))).flatten := by
  have hc2 : ∀ i, i < checklist.length →
      executor (0 + 1 + i) = ExecOutcome.completed (execHist executor (0 + 1 + i)) := by
    intro i hi
    obtain ⟨h, hh⟩ := hc i hi
    have e1 : 0 + 1 + i = i + 1 := by omega
    have hex : execHist executor (i + 1) = h := by rw [execHist, hh]
    rw [e1, hh, hex]
  have hloop := runLoop_success cfg executor checklist 0
    (checklist.map (fun s => ({ name := s } : SubtaskStatus))) [] hc2
  have hres : (runLoop cfg executor 0 checklist
      (checklist.map (fun s => ({ name := s } : SubtaskStatus))) []).result =
      Except.ok () := by rw [hloop]
  have hrun := run_of_loop_ok cfg pr checklist executor hplan hres
  refine ⟨_, by rw [hrun], ?_⟩
  show (runLoop cfg executor 0 checklist
      (checklist.map (fun s => ({ name := s } : SubtaskStatus))) []).history = _
  rw [hloop]
  show [] ++ histJoin executor 0 checklist.length = _
  rw [List.nil_append, histJoin_eq]
  apply congrArg
  apply List.map_congr_left
  intro i _
  rw [show (0 : Nat) + 1 + i = i + 1 from by omega]

/-- An executor that completes every subtask with a two-step history. -/
def c6exec : Nat → ExecOutcome Nat :=
  fun j => ExecOutcome.completed [10 * j, 10 * j + 1]

/-- Witness for C6: two subtasks, each returning two steps; the final trace
is their concatenation in order. -/
theorem claim_C6_witness :
    ∃ r, (HierarchicalAgent.run defaultCfg [PyVal.str "a", PyVal.str "b"] c6exec).result =
        Except.ok r ∧
      r.history = ((List.range 2).map (fun i => execHist c6exec (i + 1))).flatten :=
  claim_C6 defaultCfg [PyVal.str "a", PyVal.str "b"] ["a", "b"] c6exec rfl
    (fun i _ => ⟨[10 * (i + 1), 10 * (i + 1) + 1], rfl⟩)

/-- **C7** (confirmed): on the success path over a checklist of length `N`
the executor is invoked exactly `N` times, at indices `1, …, N` in checklist
order, and for every `i < N` the events "subtask `i`'s executor returned",
"subtask `i` marked done" and "handoff after subtask `i`" occur contiguously
and strictly before subtask `i+1` is invoked. -/
theorem claim_C7 {Step : Type} (cfg : AgentConfig) (pr : List PyVal)
    (checklist : List String) (executor : Nat → ExecOutcome Step)
    (hplan : ChecklistPlanner.plan_validate pr = Except.ok checklist)
    (hc : ∀ i, i < checklist.length → ∃ h, executor (i + 1) = ExecOutcome.completed h) :
    invokeIndices (HierarchicalAgent.run cfg pr executor).events =
      List.range' 1 checklist.length ∧
    (∀ i, 1 ≤ i → i + 1 ≤ checklist.length →
      ∃ pre suf, (HierarchicalAgent.run cfg pr executor).events =
        pre ++ [Event.execReturn i, Event.markedDone i, Event.handoff i,
          Event.invoke (i + 1) (checklist.getD i "") false] ++ suf) := by
  have hc2 : ∀ i, i < checklist.length →
      executor (0 + 1 + i) = ExecOutcome.completed (execHist executor (0 + 1 + i)) := by
    intro i hi
    obtain ⟨h, hh⟩ := hc i hi
    have e1 : 0 + 1 + i = i + 1 := by omega
    have hex : execHist executor (i + 1) = h := by rw [execHist, hh]
    rw [e1, hh, hex]
  have hloop := runLoop_success cfg executor checklist 0
    (checklist.map (fun s => ({ name := s } : SubtaskStatus))) [] hc2
  have hres : (runLoop cfg executor 0 checklist
      (checklist.map (fun s => ({ name := s } : SubtaskStatus))) []).result =
      Except.ok () := by rw [hloop]
  have hrun := run_of_loop_ok cfg pr checklist executor hplan hres
  have hev : (runLoop cfg executor 0 checklist
      (checklist.map (fun s => ({ name := s } : SubtaskStatus))) []).events =
      prefixEvents cfg 0 checklist := by rw [hloop]
  constructor
  · rw [hrun]
    show invokeIndices (Event.planned :: ((runLoop cfg executor 0 checklist
      (checklist.map (fun s => ({ name := s } : SubtaskStatus))) []).events ++
      [Event.teardown, Event.teardown])) = _
    rw [hev]
    show invokeIndices (prefixEvents cfg 0 checklist ++ [Event.teardown, Event.teardown]) = _
    rw [invokeIndices, List.filterMap_append]
    have h2 : List.filterMap Event.invokeIdx [Event.teardown, Event.teardown] = [] := rfl
    rw [h2, List.append_nil]
    exact invokeIndices_prefixEvents cfg checklist 0
  · intro i h1 h2
    obtain ⟨q, rfl⟩ : ∃ q, i = q + 1 := ⟨i - 1, by omega⟩
    obtain ⟨pre, suf, hdec⟩ := prefixEvents_decompose cfg checklist 0 q (by omega)
    simp only [Nat.zero_add] at hdec
    refine ⟨Event.planned :: pre, suf ++ [Event.teardown, Event.teardown], ?_⟩
    rw [hrun]
    show Event.planned :: ((runLoop cfg executor 0 checklist
      (checklist.map (fun s => ({ name := s } : SubtaskStatus))) []).events ++
      [Event.teardown, Event.teardown]) = _
    rw [hev, hdec]
    simp [seamEvents, List.append_assoc,
      show (((q + 1 : Nat) == 0) && cfg.has_initial_actions) = false from rfl]

/-- An executor that completes every subtask with a one-step history. -/
def c7exec : Nat → ExecOutcome Nat := fun j => ExecOutcome.completed [j]

/-- Witness for C7: three subtasks, all completing. -/
theorem claim_C7_witness :
    invokeIndices (HierarchicalAgent.run defaultCfg
        [PyVal.str "a", PyVal.str "b", PyVal.str "c"] c7exec).events =
      List.range' 1 3 ∧
    (∀ i, 1 ≤ i → i + 1 ≤ 3 →
      ∃ pre suf, (HierarchicalAgent.run defaultCfg
          [PyVal.str "a", PyVal.str "b", PyVal.str "c"] c7exec).events =
        pre ++ [Event.execReturn i, Event.markedDone i, Event.handoff i,
          Event.invoke (i + 1) ((["a", "b", "c"] : List String).getD i "") false] ++ suf) :=
  claim_C7 defaultCfg [PyVal.str "a", PyVal.str "b", PyVal.str "c"] ["a", "b", "c"] c7exec
    rfl (fun i _ => ⟨[i + 1], rfl⟩)

/-- **C8** (confirmed): at every observable point of a run with the current
subtask at 0-based position `p`, the status list satisfies the invariant: at
most one status is running (the dataclass in fact represents none as
running — the executing subtask stays pending until marked), every status
before `p` is terminal (done or carrying an error), and every status at or
after `p` is pending.  The invariant is preserved across every `mark_done`
and `mark_error` mutation the loop performs. -/
theorem claim_C8 {Step : Type} (cfg : AgentConfig) (pr : List PyVal)
    (executor : Nat → ExecOutcome Step) :
    ∀ snap ∈ (HierarchicalAgent.run cfg pr executor).snapshots,
      statusInvariant snap.1 snap.2 := by
  intro snap hsnap
  cases hplan : ChecklistPlanner.plan_validate pr with
  | error e =>
    rw [HierarchicalAgent.run, hplan] at hsnap
    simp at hsnap
  | ok checklist =>
    have hbase : ∀ snap2 ∈ (runLoop cfg executor 0 checklist
        (checklist.map (fun s => ({ name := s } : SubtaskStatus))) []).snapshots,
        statusInvariant snap2.1 snap2.2 := by
      apply runLoop_snapshots_invariant cfg executor checklist 0
        (checklist.map (fun s => ({ name := s } : SubtaskStatus))) []
      · simp
      · intro j hj
        exact absurd hj (Nat.not_lt_zero j)
      · intro j _ hjl
        exact initial_statuses_pending checklist j (by simpa using hjl)
    cases hres : (runLoop cfg executor 0 checklist
        (checklist.map (fun s => ({ name := s } : SubtaskStatus))) []).result with
    | ok u =>
      rw [run_of_loop_ok cfg pr checklist executor hplan (by cases u; exact hres)] at hsnap
      exact hbase snap hsnap
    | error e =>
      rw [run_of_loop_error cfg pr checklist executor e hplan hres] at hsnap
      exact hbase snap hsnap

/-- Witness for C8: the snapshot taken at the start of a one-subtask run
satisfies the invariant at position 0. -/
theorem claim_C8_witness :
    statusInvariant (0, [({ name := "a" } : SubtaskStatus)]).1
      (0, [({ name := "a" } : SubtaskStatus)]).2 :=
  claim_C8 defaultCfg [PyVal.str "a"] (fun _ => ExecOutcome.completed ([] : List Nat))
    (0, [{ name := "a" }]) (by decide)

/-- On a checklist all of whose subtasks completed, every returned status is
marked done. -/
theorem markDoneRange_all_done (l : List String) :
    ∀ s ∈ markDoneRange (l.map (fun t => ({ name := t } : SubtaskStatus))) 0 l.length,
      s.done = true := by
  intro s hs
  obtain ⟨j, hj, hget⟩ := List.mem_iff_getElem.mp hs
  have hjl : j < (l.map (fun t => ({ name := t } : SubtaskStatus))).length := by
    rw [markDoneRange_length] at hj
    exact hj
  have hgd : (markDoneRange (l.map (fun t => ({ name := t } : SubtaskStatus))) 0
      l.length).getD j default = s := by
    rw [List.getD_eq_getElem?_getD, List.getElem?_eq_getElem hj]
    exact hget
  rw [markDoneRange_getD _ _ _ _ _ hjl, if_pos (by simp at hjl; omega)] at hgd
  rw [← hgd]
  rfl

/-- **C9** (corrected), counterexample to the claim as stated: a failing run
does not deliver the partial trace and statuses to the caller.  Subtask 1
completes with step history `[7]` (the loop's accumulator holds it when
subtask 2 raises `"boom"`), yet the caller's outcome is the bare re-raised
exception: the result value carries only the error, and `run_task`
(run_online_mw2.py lines 166-182) accordingly records an empty action
history. -/
theorem claim_C9_counterexample :
    (HierarchicalAgent.run defaultCfg [PyVal.str "a", PyVal.str "b"]
        (fun j => if j == 1 then ExecOutcome.completed [7] else
          ExecOutcome.raised "boom")).result =
      Except.error (RunError.raisedErr "boom") ∧
    (runLoop defaultCfg
        (fun j => if j == 1 then ExecOutcome.completed [7] else ExecOutcome.raised "boom")
        0 ["a", "b"]
        ((["a", "b"] : List String).map (fun s => ({ name := s } : SubtaskStatus)))
        []).history = [7] :=
  ⟨rfl, rfl⟩

/-- **C9** (corrected), the amended claim: the caller receives exactly one
of two outcomes — a complete trace in which every subtask status is done, or
an error value alone.  The steps and statuses accumulated before a failure
are *not* delivered with the error: the raised exception carries only its
message, and the locals holding the partial trace are discarded. -/
theorem claim_C9_amended {Step : Type} (cfg : AgentConfig) (pr : List PyVal)
    (executor : Nat → ExecOutcome Step) :
    (∃ r, (HierarchicalAgent.run cfg pr executor).result = Except.ok r ∧
      ∀ s ∈ r.subtask_history, s.done = true) ∨
    (∃ e, (HierarchicalAgent.run cfg pr executor).result = Except.error e) := by
  cases hplan : ChecklistPlanner.plan_validate pr with
  | error e =>
    refine Or.inr ⟨RunError.planningError e, ?_⟩
    rw [HierarchicalAgent.run, hplan]
  | ok checklist =>
    cases hres : (runLoop cfg executor 0 checklist
        (checklist.map (fun s => ({ name := s } : SubtaskStatus))) []).result with
    | ok u =>
      rw [run_of_loop_ok cfg pr checklist executor hplan (by cases u; exact hres)]
      refine Or.inl ⟨_, rfl, ?_⟩
      intro s hs
      have hst := runLoop_ok_statuses cfg executor checklist 0
        (checklist.map (fun s => ({ name := s } : SubtaskStatus))) []
        (by cases u; exact hres)
      rw [hst] at hs
      exact markDoneRange_all_done checklist s hs
    | error e =>
      rw [run_of_loop_error cfg pr checklist executor e hplan hres]
      exact Or.inr ⟨e, rfl⟩

/-- **C10** (confirmed): `initial_actions` is attached to the executor's
parameters only for the subtask at index 1 (`if idx == 1 and
self.initial_actions:` at line 145); every invocation of a subtask with
index 2 or higher is constructed without it, whatever the earlier outcomes;
and when configured truthy it is attached to subtask 1's invocation. -/
theorem claim_C10 {Step : Type} (cfg : AgentConfig) (pr : List PyVal)
    (executor : Nat → ExecOutcome Step) :
    ∀ j s ia, Event.invoke j s ia ∈ (HierarchicalAgent.run cfg pr executor).events →
      (2 ≤ j → ia = false) ∧ (j = 1 → ia = cfg.has_initial_actions) := by
  intro j s ia hmem
  cases hplan : ChecklistPlanner.plan_validate pr with
  | error e =>
    rw [HierarchicalAgent.run, hplan] at hmem
    simp at hmem
  | ok checklist =>
    have key : Event.invoke j s ia ∈ (runLoop cfg executor 0 checklist
        (checklist.map (fun t => ({ name := t } : SubtaskStatus))) []).events →
        (2 ≤ j → ia = false) ∧ (j = 1 → ia = cfg.has_initial_actions) := by
      intro hm
      obtain ⟨_, _, hflag⟩ := runLoop_invoke_mem cfg executor checklist 0
        (checklist.map (fun t => ({ name := t } : SubtaskStatus))) [] j s ia hm
      constructor
      · intro hj2
        rw [hflag, beq_eq_false_iff_ne.mpr (by omega : j ≠ 1)]
        rfl
      · intro hj1
        subst hj1
        rw [hflag]
        rfl
    cases hres : (runLoop cfg executor 0 checklist
        (checklist.map (fun s => ({ name := s } : SubtaskStatus))) []).result with
    | ok u =>
      rw [run_of_loop_ok cfg pr checklist executor hplan (by cases u; exact hres)] at hmem
      simp only [List.mem_cons, List.mem_append, List.mem_singleton,
        List.not_mem_nil, or_false] at hmem
      rcases hmem with hmem | hmem | hmem | hmem
      · cases hmem
      · exact key hmem
      · cases hmem
      · cases hmem
    | error e =>
      rw [run_of_loop_error cfg pr checklist executor e hplan hres] at hmem
      simp only [List.mem_cons, List.mem_append, List.mem_singleton,
        List.not_mem_nil, or_false] at hmem
      rcases hmem with hmem | hmem | hmem
      · cases hmem
      · exact key hmem
      · cases hmem

/-- A configuration with `initial_actions` set (one action dict). -/
def c10cfg : AgentConfig := { initial_actions := some [5] }

/-- Witness for C10: a two-subtask run with `initial_actions` configured;
subtask 1's invocation carries them, subtask 2's does not. -/
theorem claim_C10_witness :
    ((2 ≤ 1 → true = false) ∧ (1 = 1 → true = c10cfg.has_initial_actions)) ∧
    ((2 ≤ 2 → false = false) ∧ (2 = 1 → false = c10cfg.has_initial_actions)) :=
  ⟨claim_C10 c10cfg [PyVal.str "a", PyVal.str "b"]
      (fun j => ExecOutcome.completed ([j] : List Nat)) 1 "a" true (by decide),
   claim_C10 c10cfg [PyVal.str "a", PyVal.str "b"]
      (fun j => ExecOutcome.completed ([j] : List Nat)) 2 "b" false (by decide)⟩

end WebAgents
